import Mathlib

/-!
Verification of scripts/build_data.py (Hi-C Gallery manifest builder).

The script scans the subdirectories of an images root, validates directory
and file names against a naming grammar, and builds a JSON manifest
(categories → cases → images).  This file gives a shallow embedding of the
script and proves/refutes the specification claims about it.

Modelling conventions:
  * A directory entry is a filename together with its text content (the
    content is only read for `.txt` caption sidecars).
  * `CaseDir` models one subdirectory of `images/`; its `entries` list is in
    filesystem enumeration order (Python's `iterdir`/`glob` order).
  * Python's `str.lower`/`str.strip`/regex `\d`/`[A-Za-z0-9]` are modelled on
    ASCII, matching the ASCII file names the tool is designed for.
  * `sortLe` is a stable insertion sort; `sortLe (keyLe k) l` agrees with
    Python's stable `sorted(l, key=k)`.
-/

namespace HiC

/-! ## Character and string utilities -/

/-- Lexicographic comparison of character lists by code point, the order
Python uses to compare strings. -/
def lexLe : List Char → List Char → Bool
  | [], _ => true
  | _ :: _, [] => false
  | a :: as, b :: bs =>
    if a < b then true
    else if b < a then false
    else lexLe as bs

/-- ASCII lower-casing of a character list (Python `str.lower` on ASCII). -/
def lowerL (l : List Char) : List Char := l.map Char.toLower

/-- Python `str.strip()` whitespace test (ASCII whitespace). -/
def isStripWS (c : Char) : Bool :=
  c = ' ' || c = '\t' || c = '\n' || c = '\r' || c.toNat = 11 || c.toNat = 12

/-- Python `str.strip()`: drop whitespace from both ends. -/
def stripWS (l : List Char) : List Char :=
  ((l.dropWhile isStripWS).reverse.dropWhile isStripWS).reverse

/-- Split a character list at every underscore (like `str.split("_")` /
the forced decomposition of the `FILE_RE` regex, whose token classes
exclude underscores). -/
def splitUnd : List Char → List (List Char)
  | [] => [[]]
  | c :: cs =>
    let r := splitUnd cs
    if c = '_' then [] :: r
    else
      match r with
      | p :: ps => (c :: p) :: ps
      | [] => [[c]]

/-- Split at the first underscore, like Python `str.partition("_")`:
`none` when there is no underscore. -/
def splitFirstUnd : List Char → Option (List Char × List Char)
  | [] => none
  | c :: cs =>
    if c = '_' then some ([], cs)
    else
      match splitFirstUnd cs with
      | some (a, b) => some (c :: a, b)
      | none => none

/-- Strip a trailing `.png` / `.PNG` extension (the extension alternative of
`FILE_RE`); `none` when the name does not end in either. -/
def stripPngExt (l : List Char) : Option (List Char) :=
  match l.reverse with
  | 'g' :: 'n' :: 'p' :: '.' :: rest => some rest.reverse
  | 'G' :: 'N' :: 'P' :: '.' :: rest => some rest.reverse
  | _ => none

/-- The stem of a filename for `Path.with_suffix`: everything before the last
dot, provided the dot is not the first character; `none` when the name has no
suffix.  Input and output are reversed character lists. -/
def revStem : List Char → Option (List Char)
  | [] => none
  | c :: rest => if c = '.' then (if rest.isEmpty then none else some rest) else revStem rest

/-- Python `png.with_suffix(".txt")`: replace the extension with `.txt`
(append when there is none). -/
def txtName (png : String) : String :=
  match revStem png.data.reverse with
  | some revS => String.mk (revS.reverse ++ ['.', 't', 'x', 't'])
  | none => String.mk (png.data ++ ['.', 't', 'x', 't'])

/-- Last path component (characters after the final slash). -/
def lastComp (l : List Char) : List Char :=
  (l.reverse.takeWhile (fun c => c ≠ '/')).reverse

/-- A nonempty, all-`[A-Za-z0-9]` token of the naming grammar. -/
def alnumTok (l : List Char) : Bool := !l.isEmpty && l.all Char.isAlphanum

/-- Exactly two ASCII digits (`\d{2}` of `FILE_RE`, ASCII model). -/
def twoDigits (l : List Char) : Bool :=
  match l with
  | [d1, d2] => d1.isDigit && d2.isDigit
  | _ => false

/-- Numeric value of a digit string, as Python `int` reads it. -/
def digitsVal (l : List Char) : Nat :=
  l.foldl (fun a c => a * 10 + (c.toNat - 48)) 0

/-! ## The naming grammar -/

/-- The three structural-variant types, in the tool's fixed order
(the insertion order of `TYPE_TO_SLUG` / `images_by_type`). -/
def TYPES : List String := ["inversion", "translocation", "duplication"]

/-- The type alternative of `FILE_RE`: `(inversion|duplication|translocation)`. -/
def isType (s : String) : Bool :=
  s = ("inversion") || s = ("duplication") || s = ("translocation")

/-- `TYPE_TO_SLUG` of the script. -/
def TYPE_TO_SLUG (t : String) : String :=
  if t = ("inversion") then ("inversions")
  else if t = ("translocation") then ("translocations")
  else if t = ("duplication") then ("duplications")
  else ("")

/-- `SLUG_ORDER` of the script. -/
def SLUG_ORDER : List String := ["inversions", "translocations", "duplications"]

/-- The four fields captured by `FILE_RE`. -/
structure FileMatch where
  ftype : String
  species : String
  author : String
  index : String
deriving DecidableEq, Repr

/-- `FILE_RE` = `^(inversion|duplication|translocation)_([A-Za-z0-9]+)_([A-Za-z0-9]+)_(\d{2})\.(?:png|PNG)$`.
Because the three captured token classes exclude underscores, a match exists
exactly when the stem splits on underscores into a type literal, two
nonempty alphanumeric tokens and a two-digit index, which is what this
function tests. -/
def parseFile (name : String) : Option FileMatch :=
  match stripPngExt name.data with
  | none => none
  | some stem =>
    match splitUnd stem with
    | [t, sp, au, xx] =>
      if isType (String.mk t) && alnumTok sp && alnumTok au && twoDigits xx then
        some ⟨String.mk t, String.mk sp, String.mk au, String.mk xx⟩
      else none
    | _ => none

/-- `CASE_DIR_RE` = `^(?:case_)?[A-Za-z0-9]+_[A-Za-z0-9]+$`.  A name matches
when it is two alphanumeric tokens joined by one underscore, optionally after
a literal `case_` prefix (the bare alternative also accepts names such as
`case_a`, where `case` itself is the first token). -/
def caseDirMatch (name : String) : Bool :=
  (match splitUnd name.data with
   | [a, b] => alnumTok a && alnumTok b
   | _ => false)
  ||
  (match name.data with
   | 'c' :: 'a' :: 's' :: 'e' :: '_' :: rest =>
     match splitUnd rest with
     | [a, b] => alnumTok a && alnumTok b
     | _ => false
   | _ => false)

/-- `re.sub(r"^case_", "", s)`: drop one leading `case_`. -/
def stripCasePre (s : String) : String :=
  match s.data with
  | 'c' :: 'a' :: 's' :: 'e' :: '_' :: rest => String.mk rest
  | _ => s

/-- `human_case_name` of the script: strip the optional `case_` prefix, split
at the first underscore, and join the parts with an em dash; when there is no
underscore or nothing follows it, return the stripped name itself. -/
def human_case_name (folder : String) : String :=
  let base := stripCasePre folder
  match splitFirstUnd base.data with
  | none => base
  | some (sp, au) =>
    if au.isEmpty then base
    else String.mk sp ++ (" — ") ++ String.mk au

/-! ## Filesystem model -/

/-- One directory entry: a filename and its text content (only meaningful
for `.txt` caption files). -/
structure FileEntry where
  name : String
  content : String
deriving DecidableEq, Repr

/-- One subdirectory of `images/`, with its entries in filesystem
enumeration order. -/
structure CaseDir where
  name : String
  entries : List FileEntry
deriving DecidableEq, Repr

/-- `p.exists()` / reading a sidecar: the first entry with the given name. -/
def findEntry (d : CaseDir) (n : String) : Option FileEntry :=
  d.entries.find? (fun e => e.name = n)

/-- File-existence test inside a case directory. -/
def hasEntry (d : CaseDir) (n : String) : Bool := (findEntry d n).isSome

/-- `case_dir.glob(pattern)` for a `*.<ext>` pattern: entries whose name ends
with the extension, excluding hidden files (glob's `*` does not match a
leading dot). -/
def globExt (d : CaseDir) (ext : List Char) : List String :=
  (d.entries.map (fun e => e.name)).filter
    (fun n => n.data.reverse.take 4 = ext.reverse && !(n.data.take 1 = ['.']))

/-- `chain(case_dir.glob("*.png"), case_dir.glob("*.PNG"))`. -/
def pngEnum (d : CaseDir) : List String :=
  globExt d ['.', 'p', 'n', 'g'] ++ globExt d ['.', 'P', 'N', 'G']

/-! ## Stable sorting (Python `sorted`) -/

/-- Stable insertion: place `a` before the first element `b` with
`le a b`; equal-key elements already present stay in front of `a`,
matching Python's stable sort. -/
def insLe (le : α → α → Bool) (a : α) : List α → List α
  | [] => [a]
  | b :: l => if le a b then a :: b :: l else b :: insLe le a l

/-- Stable sort by a boolean total preorder, agreeing with Python's
`sorted` for key-based comparisons. -/
def sortLe (le : α → α → Bool) : List α → List α
  | [] => []
  | a :: l => insLe le a (sortLe le l)

/-- The sort key of `list_pngs_sorted`: `(order, name.lower())` compared as a
Python tuple. -/
def itemLe (a b : Nat × String) : Bool :=
  if a.1 = b.1 then lexLe (lowerL a.2.data) (lowerL b.2.data)
  else decide (a.1 < b.1)

/-- The `order` component attached to each globbed png: the parsed two-digit
index, or `9999` for names that do not match `FILE_RE`. -/
def orderOf (n : String) : Nat :=
  match parseFile n with
  | some m => digitsVal m.index.data
  | none => 9999

/-- The unsorted `(order, name)` items of `list_pngs_sorted`. -/
def pngItems (d : CaseDir) : List (Nat × String) :=
  (pngEnum d).map (fun n => (orderOf n, n))

/-- `list_pngs_sorted` of the script: globbed pngs sorted by
`(order, name.lower())`. -/
def list_pngs_sorted (d : CaseDir) : List (Nat × String) :=
  sortLe itemLe (pngItems d)

/-- `caption_for` of the script: the stripped text of the `.txt` sidecar, or
`""` when the sidecar does not exist. -/
def caption_for (d : CaseDir) (png : String) : String :=
  match findEntry d (txtName png) with
  | some e => String.mk (stripWS e.content.data)
  | none => ("")

/-! ## validate_case -/

/-- `validate_case` of the script: one message for a bad folder name (which
suppresses all file checks), otherwise, per globbed png in sorted order, a
message for a name that does not match `FILE_RE`, and for matching names a
message when the embedded `<speciesID>_<authorID>` differs from the folder's
and a message when the caption sidecar is missing. -/
def validate_case (d : CaseDir) : List String :=
  if !caseDirMatch d.name then
    [("Bad case folder name: ") ++ d.name ++
      (" (expected <speciesID>_<authorID> or case_<speciesID>_<authorID>)")]
  else
    let base := stripCasePre d.name
    (list_pngs_sorted d).flatMap (fun it =>
      match parseFile it.2 with
      | none =>
        [("[") ++ d.name ++ ("] Bad file name: ") ++ it.2 ++
          (" (expected <type>_<speciesID>_<authorID>_XX.png)")]
      | some m =>
        (if m.species ++ ("_") ++ m.author ≠ base then
          [("[") ++ d.name ++ ("] Folder and file disagree: ") ++ it.2]
         else []) ++
        (if !hasEntry d (txtName it.2) then
          [("[") ++ d.name ++ ("] Missing caption TXT for ") ++ it.2]
         else []))

/-! ## build_data -/

/-- An emitted image descriptor (after the `order` key is popped). -/
structure Image where
  src : String
  alt : String
  caption : String
deriving DecidableEq, Repr

/-- An emitted case object. -/
structure Case where
  slug : String
  name : String
  description : String
  coverImage : String
  images : List Image
deriving DecidableEq, Repr

/-- An emitted category object. -/
structure Category where
  slug : String
  name : String
  description : String
  coverImage : Option String
  cases : List Case
deriving DecidableEq, Repr

/-- The manifest written to `data.json`. -/
structure Manifest where
  title : String
  tagline : String
  categories : List Category
deriving DecidableEq, Repr

/-- `rel` of the script, for a file inside a case directory:
`images/<dir>/<name>` with forward slashes. -/
def relName (d : CaseDir) (n : String) : String :=
  ("images/") ++ d.name ++ ("/") ++ n

/-- Python `str.lower` (ASCII model), on strings. -/
def lowerS (s : String) : String := String.mk (lowerL s.data)

/-- The image descriptor built for one matching png (lines 94–99 of the
script, with the `order` key already popped). -/
def imageOf (d : CaseDir) (n : String) (m : FileMatch) : Image :=
  { src := relName d n
  , alt := m.species ++ ("_") ++ m.author ++ (" ") ++ m.index
  , caption := caption_for d n }

/-- `images_by_type[t]`: the descriptors of the matching pngs of type `t`,
in `list_pngs_sorted` order. -/
def imagesOfType (d : CaseDir) (t : String) : List Image :=
  (list_pngs_sorted d).filterMap (fun it =>
    match parseFile it.2 with
    | some m => if lowerS m.ftype = t then some (imageOf d it.2 m) else none
    | none => none)

/-- Cover resolution for one `(directory, type)` case (lines 107–114):
the type-specific cover if it exists, else the generic cover if it exists,
else the `src` of the first image of the partition. -/
def coverFor (d : CaseDir) (t : String) (first : Image) : String :=
  if hasEntry d (("cover_") ++ t ++ (".png")) then relName d (("cover_") ++ t ++ (".png"))
  else if hasEntry d ("cover.png") then relName d ("cover.png")
  else first.src

/-- The `(category slug, case)` pairs one directory contributes, one per type
with a nonempty image partition, in the fixed type order. -/
def casesOfDir (d : CaseDir) : List (String × Case) :=
  TYPES.filterMap (fun t =>
    match imagesOfType d t with
    | [] => none
    | i :: rest =>
      some (TYPE_TO_SLUG t,
        { slug := d.name
        , name := human_case_name d.name
        , description := ("")
        , coverImage := coverFor d t i
        , images := i :: rest }))

/-- Directory sort key of line 85: `p.name.lower()`. -/
def dirLe (a b : CaseDir) : Bool := lexLe (lowerL a.name.data) (lowerL b.name.data)

/-- Case sort key of line 130: `c["slug"].lower()`. -/
def caseLe (a b : Case) : Bool := lexLe (lowerL a.slug.data) (lowerL b.slug.data)

/-- `slug[:1].upper() + slug[1:]`. -/
def capitalize (s : String) : String :=
  match s.data with
  | [] => ("")
  | c :: cs => String.mk (Char.toUpper c :: cs)

/-- Assemble one output category (lines 79–80 and 127–133): the cases with
this slug, sorted case-insensitively, with the category cover defaulting to
the first case's cover. -/
def buildCategory (allCases : List (String × Case)) (slug : String) : Category :=
  let cs := sortLe caseLe (allCases.filterMap (fun p => if p.1 = slug then some p.2 else none))
  { slug := slug
  , name := capitalize slug
  , description := ("")
  , coverImage := (match cs with | c :: _ => some c.coverImage | [] => none)
  , cases := cs }

/-- `build_data` of the script, as a function from the enumerated
subdirectories of `images/` to the manifest value: directories are sorted by
lower-cased name, each contributes one case per type present, and the three
categories are emitted in `SLUG_ORDER`. -/
def build_data (dirs : List CaseDir) : Manifest :=
  let allCases := (sortLe dirLe dirs).flatMap casesOfDir
  { title := ("Hi-C Gallery")
  , tagline := ("Explore Hi-C contact maps by category → case → annotated views.")
  , categories := SLUG_ORDER.map (buildCategory allCases) }

/-! ## CLI check mode -/

/-- The problem list collected by `--check` (lines 150–156). -/
def checkProblems (imgDirExists : Bool) (dirs : List CaseDir) : List String :=
  if imgDirExists then dirs.flatMap validate_case
  else [("Missing images/ directory.")]

/-- Observable outcome of one invocation: exit status, printed lines, and
the manifest written to `data.json` (`none` = not written). -/
structure RunResult where
  exitCode : Nat
  printed : List String
  manifest : Option Manifest
deriving DecidableEq, Repr

/-- Check mode (lines 150–163): report and exit nonzero when any problem
exists, otherwise exit 0; no manifest is written either way. -/
def runCheck (imgDirExists : Bool) (dirs : List CaseDir) : RunResult :=
  let ps := checkProblems imgDirExists dirs
  if ps.isEmpty then
    { exitCode := 0, printed := [("All good ✅")], manifest := none }
  else
    { exitCode := 1
    , printed := ("Validation failed:\\n") :: ps.map (fun p => (" - ") ++ p)
    , manifest := none }

/-! ## Serialization (`json.dumps(data, ensure_ascii=False, indent=2)`) -/

/-- One hexadecimal digit, lower case, as `json.dumps` writes it. -/
def hexDigit (n : Nat) : Char :=
  if n < 10 then Char.ofNat (48 + n) else Char.ofNat (87 + n)

/-- JSON string escaping with `ensure_ascii=False`: only quotes, backslashes
and control characters are escaped; everything else is written literally. -/
def escChar (c : Char) : String :=
  if c = '"' then ("\\\"")
  else if c = '\\' then ("\\\\")
  else if c = '\n' then ("\\n")
  else if c = '\t' then ("\\t")
  else if c = '\r' then ("\\r")
  else if c.toNat = 8 then ("\\b")
  else if c.toNat = 12 then ("\\f")
  else if c.toNat < 32 then
    ("\\u00") ++ String.mk [hexDigit (c.toNat / 16), hexDigit (c.toNat % 16)]
  else String.mk [c]

/-- A JSON string literal. -/
def jStr (s : String) : String :=
  ("\"") ++ String.join (s.data.map escChar) ++ ("\"")

/-- `indent=2` indentation at nesting level `lvl`. -/
def jInd (lvl : Nat) : String := String.mk (List.replicate (2 * lvl) ' ')

/-- An object at nesting level `lvl` whose field values are already encoded
(at level `lvl + 1`): the empty braces when there are no fields, otherwise
one key-value line per field. -/
def jObj (lvl : Nat) (fields : List (String × String)) : String :=
  match fields with
  | [] => ("\x7b\x7d")
  | _ =>
    ("\x7b\n") ++
    String.intercalate (",\n")
      (fields.map (fun f => jInd (lvl + 1) ++ jStr f.1 ++ (": ") ++ f.2)) ++
    ("\n") ++ jInd lvl ++ ("\x7d")

/-- An array at nesting level `lvl` whose items are already encoded
(at level `lvl + 1`). -/
def jArr (lvl : Nat) (items : List String) : String :=
  match items with
  | [] => ("[]")
  | _ =>
    ("[\n") ++
    String.intercalate (",\n") (items.map (fun it => jInd (lvl + 1) ++ it)) ++
    ("\n") ++ jInd lvl ++ ("]")

/-- An optional string: `null` when absent. -/
def jOptStr (s : Option String) : String :=
  match s with
  | some v => jStr v
  | none => ("null")

/-- Encoding of one image object at level `lvl`. -/
def encImage (lvl : Nat) (i : Image) : String :=
  jObj lvl [(("src"), jStr i.src), (("alt"), jStr i.alt), (("caption"), jStr i.caption)]

/-- Encoding of one case object at level `lvl`. -/
def encCase (lvl : Nat) (c : Case) : String :=
  jObj lvl
    [ (("slug"), jStr c.slug)
    , (("name"), jStr c.name)
    , (("description"), jStr c.description)
    , (("coverImage"), jStr c.coverImage)
    , (("images"), jArr (lvl + 1) (c.images.map (encImage (lvl + 2)))) ]

/-- Encoding of one category object at level `lvl`. -/
def encCategory (lvl : Nat) (c : Category) : String :=
  jObj lvl
    [ (("slug"), jStr c.slug)
    , (("name"), jStr c.name)
    , (("description"), jStr c.description)
    , (("coverImage"), jOptStr c.coverImage)
    , (("cases"), jArr (lvl + 1) (c.cases.map (encCase (lvl + 2)))) ]

/-- The exact text `json.dumps(data, ensure_ascii=False, indent=2)` produces
for a manifest value (written to `data.json` as UTF-8). -/
def encManifest (m : Manifest) : String :=
  jObj 0
    [ (("title"), jStr m.title)
    , (("tagline"), jStr m.tagline)
    , (("categories"), jArr 1 (m.categories.map (encCategory 2))) ]

/-- The bytes of `data.json` as a function of the enumerated directories. -/
def renderManifest (dirs : List CaseDir) : String :=
  encManifest (build_data dirs)

/-! ## Lemmas about the stable sort -/

theorem insLe_perm (le : α → α → Bool) (a : α) (l : List α) :
    (insLe le a l).Perm (a :: l) := by
  induction l with
  | nil => exact List.Perm.refl _
  | cons b t ih =>
    simp only [insLe]
    by_cases h : le a b = true
    · simp [h]
    · simp only [h, if_false]
      exact (ih.cons b).trans (List.Perm.swap a b t)

theorem sortLe_perm (le : α → α → Bool) (l : List α) : (sortLe le l).Perm l := by
  induction l with
  | nil => exact List.Perm.refl _
  | cons a t ih => exact (insLe_perm le a (sortLe le t)).trans (ih.cons a)

theorem mem_sortLe (le : α → α → Bool) (l : List α) (x : α) :
    x ∈ sortLe le l ↔ x ∈ l :=
  (sortLe_perm le l).mem_iff

theorem pairwise_insLe (le : α → α → Bool)
    (htot : ∀ a b, le a b = true ∨ le b a = true)
    (htr : ∀ a b c, le a b = true → le b c = true → le a c = true)
    (a : α) (l : List α) (h : l.Pairwise (fun x y => le x y = true)) :
    (insLe le a l).Pairwise (fun x y => le x y = true) := by
  induction l with
  | nil => simp [insLe]
  | cons b t ih =>
    rw [List.pairwise_cons] at h
    obtain ⟨hb, ht⟩ := h
    simp only [insLe]
    by_cases hab : le a b = true
    · simp only [hab, if_true]
      refine List.Pairwise.cons ?_ (List.Pairwise.cons hb ht)
      intro y hy
      rcases List.mem_cons.mp hy with rfl | hyt
      · exact hab
      · exact htr a b y hab (hb y hyt)
    · simp only [hab, if_false]
      have hba : le b a = true := (htot a b).resolve_left hab
      refine List.Pairwise.cons ?_ (ih ht)
      intro y hy
      rcases List.mem_cons.mp ((insLe_perm le a t).mem_iff.mp hy) with rfl | h2
      · exact hba
      · exact hb y h2

theorem pairwise_sortLe (le : α → α → Bool)
    (htot : ∀ a b, le a b = true ∨ le b a = true)
    (htr : ∀ a b c, le a b = true → le b c = true → le a c = true)
    (l : List α) : (sortLe le l).Pairwise (fun x y => le x y = true) := by
  induction l with
  | nil => simp [sortLe]
  | cons a t ih => exact pairwise_insLe le htot htr a (sortLe le t) ih

theorem sorted_perm_eq (le : α → α → Bool) :
    ∀ (l1 l2 : List α), l1.Perm l2 →
    l1.Pairwise (fun x y => le x y = true) →
    l2.Pairwise (fun x y => le x y = true) →
    (∀ a ∈ l1, ∀ b ∈ l1, le a b = true → le b a = true → a = b) →
    l1 = l2
  | [], l2, hp, _, _, _ => hp.nil_eq
  | a :: t, [], hp, _, _, _ => absurd hp.symm.nil_eq (by simp)
  | a :: t, b :: t2, hp, hs1, hs2, hanti => by
    rw [List.pairwise_cons] at hs1 hs2
    have hab : a = b := by
      rcases List.mem_cons.mp (hp.mem_iff.mp (List.mem_cons_self a t)) with h | hat2
      · exact h
      · rcases List.mem_cons.mp (hp.symm.mem_iff.mp (List.mem_cons_self b t2)) with h | hbt
        · exact h.symm
        · exact hanti a (List.mem_cons_self a t) b (List.mem_cons_of_mem a hbt)
            (hs1.1 b hbt) (hs2.1 a hat2)
    subst hab
    have ht : t = t2 :=
      sorted_perm_eq le t t2 hp.cons_inv hs1.2 hs2.2
        (fun x hx y hy => hanti x (List.mem_cons_of_mem a hx) y (List.mem_cons_of_mem a hy))
    rw [ht]

theorem sortLe_eq_of_perm (le : α → α → Bool)
    (htot : ∀ a b, le a b = true ∨ le b a = true)
    (htr : ∀ a b c, le a b = true → le b c = true → le a c = true)
    (l l' : List α) (hp : l.Perm l')
    (hanti : ∀ a ∈ l, ∀ b ∈ l, le a b = true → le b a = true → a = b) :
    sortLe le l = sortLe le l' :=
  sorted_perm_eq le _ _
    ((sortLe_perm le l).trans (hp.trans (sortLe_perm le l').symm))
    (pairwise_sortLe le htot htr l)
    (pairwise_sortLe le htot htr l')
    (fun a ha b hb => hanti a ((mem_sortLe le l a).mp ha) b ((mem_sortLe le l b).mp hb))

theorem insLe_congr (le : α → α → Bool) (R : α → α → Prop)
    (hcomp : ∀ a a' b b', R a a' → R b b' → le a b = le a' b')
    {a a' : α} (ha : R a a') {l l' : List α} (h : List.Forall₂ R l l') :
    List.Forall₂ R (insLe le a l) (insLe le a' l') := by
  induction h with
  | nil => exact List.Forall₂.cons ha List.Forall₂.nil
  | cons hb ht ih =>
    rename_i b b' t t'
    simp only [insLe]
    rw [← hcomp _ _ _ _ ha hb]
    by_cases hc : le a b = true
    · simp only [hc, if_true]
      exact List.Forall₂.cons ha (List.Forall₂.cons hb ht)
    · simp only [hc, if_false]
      exact List.Forall₂.cons hb ih

theorem sortLe_congr (le : α → α → Bool) (R : α → α → Prop)
    (hcomp : ∀ a a' b b', R a a' → R b b' → le a b = le a' b')
    {l l' : List α} (h : List.Forall₂ R l l') :
    List.Forall₂ R (sortLe le l) (sortLe le l') := by
  induction h with
  | nil => exact List.Forall₂.nil
  | cons ha ht ih => exact insLe_congr le R hcomp ha ih

theorem flatMap_congr_forall2 (R : α → α → Prop) (f : α → List β) :
    ∀ {l l' : List α}, List.Forall₂ R l l' →
      (∀ a a', a ∈ l → R a a' → f a = f a') →
      l.flatMap f = l'.flatMap f
  | _, _, List.Forall₂.nil, _ => rfl
  | a :: t, a' :: t', List.Forall₂.cons ha ht, hf => by
    simp only [List.flatMap_cons]
    rw [hf a a' (List.mem_cons_self a t) ha,
      flatMap_congr_forall2 R f ht
        (fun x x' hx hR => hf x x' (List.mem_cons_of_mem a hx) hR)]

theorem lexLe_total : ∀ a b : List Char, lexLe a b = true ∨ lexLe b a = true
  | [], _ => Or.inl rfl
  | _ :: _, [] => Or.inr rfl
  | a :: as, b :: bs => by
    simp only [lexLe]
    rcases lt_trichotomy a b with h | h | h
    · left; simp [h]
    · subst h
      simp only [lt_irrefl, if_false]
      exact lexLe_total as bs
    · right; simp [h]

theorem lexLe_trans : ∀ a b c : List Char,
    lexLe a b = true → lexLe b c = true → lexLe a c = true
  | [], _, _, _, _ => rfl
  | _ :: _, [], _, h1, _ => by simp [lexLe] at h1
  | _ :: _, _ :: _, [], _, h2 => by simp [lexLe] at h2
  | a :: as, b :: bs, c :: cs, h1, h2 => by
    simp only [lexLe] at h1 h2 ⊢
    by_cases hab : a < b
    · by_cases hbc : b < c
      · simp [lt_trans hab hbc]
      · by_cases hcb : c < b
        · simp [hbc, hcb] at h2
        · have he : b = c := le_antisymm (le_of_not_lt hcb) (le_of_not_lt hbc)
          subst he
          simp [hab]
    · by_cases hba : b < a
      · simp [hab, hba] at h1
      · have he : a = b := le_antisymm (le_of_not_lt hba) (le_of_not_lt hab)
        subst he
        simp only [lt_irrefl, if_false] at h1
        by_cases hac : a < c
        · simp [hac]
        · by_cases hca : c < a
          · simp [hac, hca] at h2
          · have he2 : a = c := le_antisymm (le_of_not_lt hca) (le_of_not_lt hac)
            subst he2
            simp only [lt_irrefl, if_false] at h2 ⊢
            exact lexLe_trans as bs cs h1 h2

theorem lexLe_antisymm : ∀ a b : List Char,
    lexLe a b = true → lexLe b a = true → a = b
  | [], [], _, _ => rfl
  | [], _ :: _, _, h2 => by simp [lexLe] at h2
  | _ :: _, [], h1, _ => by simp [lexLe] at h1
  | a :: as, b :: bs, h1, h2 => by
    simp only [lexLe] at h1 h2
    by_cases hab : a < b
    · simp [hab, lt_asymm hab] at h2
    · by_cases hba : b < a
      · simp [hab, hba] at h1
      · have he : a = b := le_antisymm (le_of_not_lt hba) (le_of_not_lt hab)
        subst he
        simp only [lt_irrefl, if_false] at h1 h2
        rw [lexLe_antisymm as bs h1 h2]

theorem itemLe_total (a b : Nat × String) : itemLe a b = true ∨ itemLe b a = true := by
  simp only [itemLe]
  by_cases h : a.1 = b.1
  · rw [if_pos h, if_pos h.symm]
    exact lexLe_total _ _
  · rw [if_neg h, if_neg (fun hh => h hh.symm)]
    simp only [decide_eq_true_eq]
    omega

theorem itemLe_trans (a b c : Nat × String) :
    itemLe a b = true → itemLe b c = true → itemLe a c = true := by
  intro h1 h2
  simp only [itemLe] at h1 h2 ⊢
  by_cases hab : a.1 = b.1 <;> by_cases hbc : b.1 = c.1
  · rw [if_pos hab] at h1
    rw [if_pos hbc] at h2
    rw [if_pos (hab.trans hbc)]
    exact lexLe_trans _ _ _ h1 h2
  · rw [if_neg hbc, decide_eq_true_eq] at h2
    rw [if_neg (by omega), decide_eq_true_eq]
    omega
  · rw [if_neg hab, decide_eq_true_eq] at h1
    rw [if_neg (by omega), decide_eq_true_eq]
    omega
  · rw [if_neg hab, decide_eq_true_eq] at h1
    rw [if_neg hbc, decide_eq_true_eq] at h2
    rw [if_neg (by omega), decide_eq_true_eq]
    omega

theorem itemLe_both (a b : Nat × String) :
    itemLe a b = true → itemLe b a = true →
    a.1 = b.1 ∧ lowerL a.2.data = lowerL b.2.data := by
  intro h1 h2
  simp only [itemLe] at h1 h2
  by_cases hab : a.1 = b.1
  · rw [if_pos hab] at h1
    rw [if_pos hab.symm] at h2
    exact ⟨hab, lexLe_antisymm _ _ h1 h2⟩
  · rw [if_neg hab, decide_eq_true_eq] at h1
    rw [if_neg (fun hh => hab hh.symm), decide_eq_true_eq] at h2
    omega

theorem dirLe_total (a b : CaseDir) : dirLe a b = true ∨ dirLe b a = true :=
  lexLe_total _ _

theorem dirLe_trans (a b c : CaseDir) :
    dirLe a b = true → dirLe b c = true → dirLe a c = true :=
  lexLe_trans _ _ _

theorem caseLe_total (a b : Case) : caseLe a b = true ∨ caseLe b a = true :=
  lexLe_total _ _

theorem caseLe_trans (a b c : Case) :
    caseLe a b = true → caseLe b c = true → caseLe a c = true :=
  lexLe_trans _ _ _

theorem pairwise_filterMap_of_pairwise (R : α → α → Prop) (S : β → β → Prop)
    (f : α → Option β) :
    ∀ (l : List α), l.Pairwise R →
      (∀ a b x y, a ∈ l → b ∈ l → R a b → f a = some x → f b = some y → S x y) →
      (l.filterMap f).Pairwise S
  | [], _, _ => by simp
  | a :: t, h, hf => by
    rw [List.pairwise_cons] at h
    have htail : (t.filterMap f).Pairwise S :=
      pairwise_filterMap_of_pairwise R S f t h.2
        (fun x y u v hx hy => hf x y u v (List.mem_cons_of_mem a hx) (List.mem_cons_of_mem a hy))
    cases hfa : f a with
    | none => simpa [List.filterMap_cons, hfa] using htail
    | some x =>
      simp only [List.filterMap_cons, hfa]
      refine List.Pairwise.cons ?_ htail
      intro y hy
      obtain ⟨b, hb, hfb⟩ := List.mem_filterMap.mp hy
      exact hf a b x y (List.mem_cons_self a t) (List.mem_cons_of_mem a hb) (h.1 b hb) hfa hfb

/-! ## Membership lemmas for the build pipeline -/

theorem mem_item_sorted {d : CaseDir} {o : Nat} {n : String}
    (h : (o, n) ∈ list_pngs_sorted d) : n ∈ pngEnum d ∧ o = orderOf n := by
  rw [list_pngs_sorted, mem_sortLe] at h
  obtain ⟨n0, hn0, he⟩ := List.mem_map.mp h
  obtain ⟨h1, h2⟩ := Prod.mk.injEq _ _ _ _ ▸ he
  subst h2
  exact ⟨hn0, h1.symm⟩

theorem item_mem_sorted {d : CaseDir} {n : String} (h : n ∈ pngEnum d) :
    (orderOf n, n) ∈ list_pngs_sorted d := by
  rw [list_pngs_sorted, mem_sortLe]
  exact List.mem_map.mpr ⟨n, h, rfl⟩

theorem parseFile_fields {n : String} {m : FileMatch} (hp : parseFile n = some m) :
    isType m.ftype = true ∧ alnumTok m.species.data = true ∧
    alnumTok m.author.data = true ∧ twoDigits m.index.data = true := by
  unfold parseFile at hp
  split at hp
  · cases hp
  · split at hp
    · split at hp
      · rename_i t sp au xx hcond
        obtain ⟨⟨⟨h1, h2⟩, h3⟩, h4⟩ :=
          by simpa [Bool.and_eq_true] using hcond
        cases hp
        exact ⟨h1, h2, h3, h4⟩
      · cases hp
    · cases hp

theorem isType_cases {s : String} (h : isType s = true) :
    s = ("inversion") ∨ s = ("duplication") ∨ s = ("translocation") := by
  simpa [isType, Bool.or_eq_true, decide_eq_true_eq, or_assoc] using h

theorem isType_lower_fixed {s : String} (h : isType s = true) :
    lowerS s = s ∧ s ∈ TYPES := by
  rcases isType_cases h with rfl | rfl | rfl <;> exact ⟨by decide, by decide⟩

theorem slug_mem_of_type {t : String} (ht : t ∈ TYPES) :
    TYPE_TO_SLUG t ∈ SLUG_ORDER := by
  rcases ht with _ | ⟨_, _ | ⟨_, _ | ⟨_, h⟩⟩⟩
  · exact List.mem_cons_self _ _
  · exact List.mem_cons_of_mem _ (List.mem_cons_self _ _)
  · exact List.mem_cons_of_mem _ (List.mem_cons_of_mem _ (List.mem_cons_self _ _))
  · cases h

theorem mem_imagesOfType {d : CaseDir} {t : String} {img : Image} :
    img ∈ imagesOfType d t ↔
      ∃ n m, n ∈ pngEnum d ∧ parseFile n = some m ∧ lowerS m.ftype = t ∧
        img = imageOf d n m := by
  rw [imagesOfType]
  constructor
  · intro h
    obtain ⟨⟨o, n⟩, hit, hsome⟩ := List.mem_filterMap.mp h
    split at hsome
    · rename_i m hp
      split at hsome
      · rename_i hl
        exact ⟨n, m, (mem_item_sorted hit).1, hp, hl, (Option.some.inj hsome).symm⟩
      · cases hsome
    · cases hsome
  · rintro ⟨n, m, hn, hp, hl, he⟩
    exact List.mem_filterMap.mpr ⟨(orderOf n, n), item_mem_sorted hn, by simp [hp, hl, he]⟩

theorem mem_casesOfDir {d : CaseDir} {p : String × Case} :
    p ∈ casesOfDir d ↔
      ∃ t, t ∈ TYPES ∧ ∃ i rest, imagesOfType d t = i :: rest ∧
        p = (TYPE_TO_SLUG t,
          { slug := d.name, name := human_case_name d.name, description := ("")
          , coverImage := coverFor d t i, images := i :: rest }) := by
  rw [casesOfDir]
  constructor
  · intro h
    obtain ⟨t, ht, hsome⟩ := List.mem_filterMap.mp h
    cases hi : imagesOfType d t with
    | nil => rw [hi] at hsome; cases hsome
    | cons i rest =>
      rw [hi] at hsome
      exact ⟨t, ht, i, rest, hi, (Option.some.inj hsome).symm⟩
  · rintro ⟨t, ht, i, rest, hi, he⟩
    exact List.mem_filterMap.mpr ⟨t, ht, by rw [hi, he]⟩

theorem mem_buildCategory_cases {A : List (String × Case)} {slug : String} {cs : Case} :
    cs ∈ (buildCategory A slug).cases ↔ (slug, cs) ∈ A := by
  simp only [buildCategory]
  rw [mem_sortLe]
  constructor
  · intro h
    obtain ⟨p, hp, he⟩ := List.mem_filterMap.mp h
    by_cases h1 : p.1 = slug
    · rw [if_pos h1] at he
      obtain h2 := Option.some.inj he
      have : p = (slug, cs) := by
        cases p; cases h1; cases h2; rfl
      exact this ▸ hp
    · rw [if_neg h1] at he
      cases he
  · intro h
    exact List.mem_filterMap.mpr ⟨(slug, cs), h, by simp⟩

theorem mem_categories {dirs : List CaseDir} {cat : Category} :
    cat ∈ (build_data dirs).categories ↔
      ∃ slug, slug ∈ SLUG_ORDER ∧
        cat = buildCategory ((sortLe dirLe dirs).flatMap casesOfDir) slug := by
  simp only [build_data, List.mem_map]
  constructor
  · rintro ⟨slug, h1, h2⟩
    exact ⟨slug, h1, h2.symm⟩
  · rintro ⟨slug, h1, h2⟩
    exact ⟨slug, h1, h2.symm⟩

theorem mem_allCases {dirs : List CaseDir} {p : String × Case} :
    p ∈ (sortLe dirLe dirs).flatMap casesOfDir ↔ ∃ d ∈ dirs, p ∈ casesOfDir d := by
  rw [List.mem_flatMap]
  constructor
  · rintro ⟨d, hd, hp⟩
    exact ⟨d, (mem_sortLe _ _ _).mp hd, hp⟩
  · rintro ⟨d, hd, hp⟩
    exact ⟨d, (mem_sortLe _ _ _).mpr hd, hp⟩

theorem case_origin {dirs : List CaseDir} {cat : Category} {cs : Case}
    (hcat : cat ∈ (build_data dirs).categories) (hcs : cs ∈ cat.cases) :
    ∃ d, d ∈ dirs ∧ ∃ t, t ∈ TYPES ∧ TYPE_TO_SLUG t = cat.slug ∧
      ∃ i rest, imagesOfType d t = i :: rest ∧
        cs = { slug := d.name, name := human_case_name d.name, description := ("")
             , coverImage := coverFor d t i, images := i :: rest } := by
  obtain ⟨slug, hslug, hc⟩ := mem_categories.mp hcat
  subst hc
  obtain ⟨d, hd, hp⟩ := mem_allCases.mp (mem_buildCategory_cases.mp hcs)
  obtain ⟨t, ht, i, rest, hi, he⟩ := mem_casesOfDir.mp hp
  obtain ⟨h1, h2⟩ := Prod.mk.injEq _ _ _ _ ▸ he
  exact ⟨d, hd, t, ht, h1.symm, i, rest, hi, h2⟩

theorem image_origin {dirs : List CaseDir} {cat : Category} {cs : Case} {img : Image}
    (hcat : cat ∈ (build_data dirs).categories) (hcs : cs ∈ cat.cases)
    (himg : img ∈ cs.images) :
    ∃ d, d ∈ dirs ∧ ∃ n m, n ∈ pngEnum d ∧ parseFile n = some m ∧
      img = imageOf d n m ∧ img.src = relName d n := by
  obtain ⟨d, hd, t, _, _, i, rest, hi, he⟩ := case_origin hcat hcs
  rw [he] at himg
  have : img ∈ imagesOfType d t := by rw [hi]; exact himg
  obtain ⟨n, m, hn, hp, _, heq⟩ := mem_imagesOfType.mp this
  exact ⟨d, hd, n, m, hn, hp, heq, by subst heq; rfl⟩

theorem image_in_manifest {dirs : List CaseDir} {d : CaseDir} {n : String} {m : FileMatch}
    (hd : d ∈ dirs) (hn : n ∈ pngEnum d) (hp : parseFile n = some m) :
    ∃ cat, cat ∈ (build_data dirs).categories ∧ ∃ cs, cs ∈ cat.cases ∧
      cs.images = imagesOfType d (lowerS m.ftype) ∧ imageOf d n m ∈ cs.images := by
  have hiT := (isType_lower_fixed (parseFile_fields hp).1)
  have hmem : imageOf d n m ∈ imagesOfType d (lowerS m.ftype) :=
    mem_imagesOfType.mpr ⟨n, m, hn, hp, rfl, rfl⟩
  have htT : lowerS m.ftype ∈ TYPES := by rw [hiT.1]; exact hiT.2
  cases hi : imagesOfType d (lowerS m.ftype) with
  | nil => rw [hi] at hmem; cases hmem
  | cons i rest =>
    refine ⟨buildCategory ((sortLe dirLe dirs).flatMap casesOfDir) (TYPE_TO_SLUG (lowerS m.ftype)),
      mem_categories.mpr ⟨_, slug_mem_of_type htT, rfl⟩, ?_⟩
    refine ⟨{ slug := d.name, name := human_case_name d.name, description := ("")
            , coverImage := coverFor d (lowerS m.ftype) i, images := i :: rest }, ?_, ?_, ?_⟩
    · exact mem_buildCategory_cases.mpr
        (mem_allCases.mpr ⟨d, hd, mem_casesOfDir.mpr ⟨_, htT, i, rest, hi, rfl⟩⟩)
    · rw [← hi]
    · rw [← hi]; exact hmem

/-! ## Concrete directories used as witnesses and counterexamples -/

/-- A directory whose name violates `CASE_DIR_RE` but which contains a
`FILE_RE`-matching image file. -/
def dBadName : CaseDir :=
  ⟨("bad name!"), [⟨("inversion_sp1_au1_01.png"), ("")⟩]⟩

/-- A validly named directory with two image files of the same type carrying
the same two-digit index (they differ only in extension case), plus the one
caption sidecar both resolve to. -/
def dDup : CaseDir :=
  ⟨("sp1_au1"),
    [⟨("inversion_sp1_au1_01.png"), ("")⟩,
     ⟨("inversion_sp1_au1_01.PNG"), ("")⟩,
     ⟨("inversion_sp1_au1_01.txt"), ("cap")⟩]⟩

/-- A small fully valid directory. -/
def dWit : CaseDir :=
  ⟨("sp1_au1"),
    [⟨("inversion_sp1_au1_01.png"), ("")⟩,
     ⟨("inversion_sp1_au1_01.txt"), ("c")⟩]⟩

/-- Dummy values for list indexing in closed witness statements. -/
def defCategory : Category := ⟨("x"), ("x"), ("x"), none, []⟩

/-- Dummy case value. -/
def defCase : Case := ⟨("x"), ("x"), ("x"), ("x"), []⟩

/-- Dummy image value. -/
def defImage : Image := ⟨("x"), ("x"), ("x")⟩

/-! ## Claim C1 -/

/-- C1, counterexample: the claim says every emitted image descriptor lies in
a directory whose name matches the case-folder grammar; but `build_data`
iterates all subdirectories without checking `CASE_DIR_RE`, so a directory
named `bad name!` still contributes its `FILE_RE`-matching image to the
manifest. -/
theorem C1_counterexample :
    caseDirMatch dBadName.name = false ∧
    ∃ cat ∈ (build_data [dBadName]).categories, ∃ cs ∈ cat.cases, ∃ img ∈ cs.images,
      img.src = ("images/bad name!/inversion_sp1_au1_01.png") := by
  decide

/-- C1 (amended): every image descriptor that `build_data` emits into the
manifest comes from a globbed file of some enumerated directory whose name
matches the image naming grammar `FILE_RE`, and its `src` is that file's path
inside that directory; the owning directory's name and the
`<speciesID>_<authorID>` agreement are not checked during manifest
generation. -/
theorem C1_theorem {dirs : List CaseDir} {cat : Category} {cs : Case} {img : Image}
    (hcat : cat ∈ (build_data dirs).categories) (hcs : cs ∈ cat.cases)
    (himg : img ∈ cs.images) :
    ∃ d, d ∈ dirs ∧ ∃ n m, n ∈ pngEnum d ∧ parseFile n = some m ∧
      img = imageOf d n m ∧ img.src = relName d n :=
  image_origin hcat hcs himg

/-- C1 witness: the amended theorem applied to the concrete manifest of a
one-image directory. -/
theorem C1_witness :
    ∃ d, d ∈ [dWit] ∧ ∃ n m, n ∈ pngEnum d ∧ parseFile n = some m ∧
      (((build_data [dWit]).categories.getD 0 defCategory).cases.getD 0 defCase).images.getD 0 defImage
        = imageOf d n m ∧
      ((((build_data [dWit]).categories.getD 0 defCategory).cases.getD 0 defCase).images.getD 0 defImage).src
        = relName d n :=
  @C1_theorem [dWit]
    ((build_data [dWit]).categories.getD 0 defCategory)
    (((build_data [dWit]).categories.getD 0 defCategory).cases.getD 0 defCase)
    ((((build_data [dWit]).categories.getD 0 defCategory).cases.getD 0 defCase).images.getD 0 defImage)
    (by decide) (by decide) (by decide)

/-! ## Claim C2 -/

/-- C2, counterexample: two image files of the same type carrying the same
two-digit index in a validly named directory produce no validation problem
at all — `validate_case` has no duplicate-index check. -/
theorem C2_counterexample :
    caseDirMatch dDup.name = true ∧
    ("inversion_sp1_au1_01.png") ∈ pngEnum dDup ∧
    ("inversion_sp1_au1_01.PNG") ∈ pngEnum dDup ∧
    ("inversion_sp1_au1_01.png") ≠ ("inversion_sp1_au1_01.PNG") ∧
    parseFile ("inversion_sp1_au1_01.png") =
      some ⟨("inversion"), ("sp1"), ("au1"), ("01")⟩ ∧
    parseFile ("inversion_sp1_au1_01.PNG") =
      some ⟨("inversion"), ("sp1"), ("au1"), ("01")⟩ ∧
    validate_case dDup = [] := by
  decide

/-- A globbed png is unobjectionable to `validate_case`: it matches
`FILE_RE`, its species/author pair equals the folder's, and its caption
sidecar exists.  Index uniqueness is deliberately absent. -/
def goodPng (d : CaseDir) (n : String) : Bool :=
  match parseFile n with
  | some m => (m.species ++ ("_") ++ m.author = stripCasePre d.name) && hasEntry d (txtName n)
  | none => false

/-- C2 (amended): `validate_case` performs no duplicate-index detection:
whenever the folder name is valid and every globbed png matches the grammar,
agrees with the folder and has a caption, the problem list is empty — even
when several files of the same type share the same index. -/
theorem C2_theorem (d : CaseDir) (hname : caseDirMatch d.name = true)
    (hall : ∀ n ∈ pngEnum d, goodPng d n = true) :
    validate_case d = [] := by
  unfold validate_case
  rw [if_neg (by simp [hname])]
  rw [List.flatMap_eq_nil_iff]
  rintro ⟨o, n⟩ hit
  have hw := (mem_item_sorted hit).1
  have hg := hall n hw
  unfold goodPng at hg
  split at hg
  · rename_i m hp
    simp only [Bool.and_eq_true] at hg
    obtain ⟨hsp, hcap⟩ := hg
    simp only [hp]
    rw [decide_eq_true_eq] at hsp
    simp [hsp, hcap]
  · cases hg

/-- C2 witness: the amended theorem applied to the duplicate-index
directory. -/
theorem C2_witness : validate_case dDup = [] :=
  C2_theorem dDup (by decide) (by decide)

/-! ## Claim C5 -/

/-- C5: in check mode, an empty problem list yields exit status 0 and no
manifest; a nonempty one yields exit status 1 (nonzero), no manifest, and
every collected problem is printed (collection never short-circuits). -/
theorem C5_theorem (ex : Bool) (dirs : List CaseDir) :
    (checkProblems ex dirs = [] →
      runCheck ex dirs =
        { exitCode := 0, printed := [("All good ✅")], manifest := none }) ∧
    (checkProblems ex dirs ≠ [] →
      (runCheck ex dirs).exitCode = 1 ∧ (runCheck ex dirs).manifest = none ∧
      ∀ p ∈ checkProblems ex dirs, ((" - ") ++ p) ∈ (runCheck ex dirs).printed) := by
  constructor
  · intro h
    unfold runCheck
    simp [h]
  · intro h
    have hne : (checkProblems ex dirs).isEmpty = false := by
      cases hc : checkProblems ex dirs with
      | nil => exact absurd hc h
      | cons a l => rfl
    have hrun : runCheck ex dirs =
        { exitCode := 1
        , printed :=
            ("Validation failed:\\n") :: (checkProblems ex dirs).map (fun p => (" - ") ++ p)
        , manifest := none } := by
      unfold runCheck
      rw [if_neg (by simp [hne])]
    rw [hrun]
    refine ⟨rfl, rfl, ?_⟩
    intro p hp
    exact List.mem_cons_of_mem _ (List.mem_map.mpr ⟨p, hp, rfl⟩)

/-- C5 witness: the failing branch at a directory with a bad folder name. -/
theorem C5_witness :
    (runCheck true [dBadName]).exitCode = 1 ∧
    (runCheck true [dBadName]).manifest = none ∧
    ∀ p ∈ checkProblems true [dBadName],
      ((" - ") ++ p) ∈ (runCheck true [dBadName]).printed :=
  (C5_theorem true [dBadName]).2 (by decide)

/-! ## Claim C6 -/

theorem splitUnd_no_und : ∀ l : List Char, l.all (fun c => c != '_') = true →
    splitUnd l = [l]
  | [], _ => rfl
  | c :: cs, h => by
    simp only [List.all_cons, Bool.and_eq_true] at h
    simp only [splitUnd]
    rw [splitUnd_no_und cs h.2]
    rw [if_neg (by simpa [bne_iff_ne] using h.1)]

theorem splitUnd_append (a rest : List Char) (ha : a.all (fun c => c != '_') = true) :
    splitUnd (a ++ '_' :: rest) = a :: splitUnd rest := by
  induction a with
  | nil =>
    simp [splitUnd]
  | cons c cs ih =>
    simp only [List.all_cons, Bool.and_eq_true] at ha
    simp only [List.cons_append, splitUnd, List.append_eq]
    rw [ih ha.2, if_neg (by simpa [bne_iff_ne] using ha.1)]

theorem stripPngExt_append (l : List Char) :
    stripPngExt (l ++ ['.', 'p', 'n', 'g']) = some l := by
  simp [stripPngExt, List.reverse_append]

theorem alnum_no_und {l : List Char} (h : alnumTok l = true) :
    l.all (fun c => c != '_') = true := by
  simp only [alnumTok, Bool.and_eq_true] at h
  rw [List.all_eq_true] at *
  intro c hc
  have := h.2 c hc
  simp only [bne_iff_ne, ne_eq, decide_eq_true_eq]
  intro he
  subst he
  simp at this

theorem digits_no_und {l : List Char} (h : l.all Char.isDigit = true) :
    l.all (fun c => c != '_') = true := by
  rw [List.all_eq_true] at *
  intro c hc
  have := h c hc
  simp only [bne_iff_ne, ne_eq, decide_eq_true_eq]
  intro he
  subst he
  simp at this

theorem type_no_und {t : String} (h : isType t = true) :
    t.data.all (fun c => c != '_') = true := by
  rcases isType_cases h with rfl | rfl | rfl <;> decide

theorem twoDigits_false_of_len {ds : List Char} (h : ds.length ≠ 2) :
    twoDigits ds = false := by
  match ds with
  | [] => rfl
  | [_] => rfl
  | [_, _] => exact absurd rfl h
  | _ :: _ :: _ :: _ => rfl

/-- The filename `<t>_<sp>_<au>_<ds>.png` with arbitrary digit string `ds`. -/
def mkPngName (t sp au : String) (ds : List Char) : String :=
  String.mk (t.data ++ '_' :: (sp.data ++ '_' :: (au.data ++ '_' :: ds)) ++ ['.', 'p', 'n', 'g'])

theorem parseFile_wrong_digits (t sp au : String) (ds : List Char)
    (ht : isType t = true) (hsp : alnumTok sp.data = true) (hau : alnumTok au.data = true)
    (hds : ds.all Char.isDigit = true) (hlen : ds.length ≠ 2) :
    parseFile (mkPngName t sp au ds) = none := by
  unfold parseFile mkPngName
  rw [show (String.mk (t.data ++ '_' :: (sp.data ++ '_' :: (au.data ++ '_' :: ds)) ++
      ['.', 'p', 'n', 'g'])).data =
      (t.data ++ '_' :: (sp.data ++ '_' :: (au.data ++ '_' :: ds))) ++ ['.', 'p', 'n', 'g'] from by
    simp [List.append_assoc]]
  rw [stripPngExt_append]
  have h1 := splitUnd_append t.data (sp.data ++ '_' :: (au.data ++ '_' :: ds)) (type_no_und ht)
  have h2 := splitUnd_append sp.data (au.data ++ '_' :: ds) (alnum_no_und hsp)
  have h3 := splitUnd_append au.data ds (alnum_no_und hau)
  have h4 := splitUnd_no_und ds (digits_no_und hds)
  simp only [h1, h2, h3, h4]
  simp [twoDigits_false_of_len hlen]

/-- C6, counterexample: the claim says the grammar matches only when the
two-digit index is a positive integer; but `FILE_RE` also matches index
`00`, whose numeric value is zero. -/
theorem C6_counterexample :
    parseFile ("inversion_sp1_au1_00.png") =
      some ⟨("inversion"), ("sp1"), ("au1"), ("00")⟩ ∧
    digitsVal ("00").data = 0 := by
  decide

/-- C6 (amended): the index field of any `FILE_RE` match is exactly two
ASCII digits (`00`–`99`; positivity is not enforced); a well-formed filename
whose digit field has any length other than two never matches; and every
image in the manifest comes from a matching file, so non-matching files are
excluded from the manifest. -/
theorem C6_theorem :
    (∀ (n : String) (m : FileMatch), parseFile n = some m →
      twoDigits m.index.data = true) ∧
    (∀ (t sp au : String) (ds : List Char), isType t = true →
      alnumTok sp.data = true → alnumTok au.data = true →
      ds.all Char.isDigit = true → ds.length ≠ 2 →
      parseFile (mkPngName t sp au ds) = none) ∧
    (∀ (dirs : List CaseDir) (cat : Category) (cs : Case) (img : Image),
      cat ∈ (build_data dirs).categories → cs ∈ cat.cases → img ∈ cs.images →
      ∃ d, d ∈ dirs ∧ ∃ n m, n ∈ pngEnum d ∧ parseFile n = some m ∧
        img.src = relName d n) := by
  refine ⟨?_, ?_, ?_⟩
  · intro n m hp
    exact (parseFile_fields hp).2.2.2
  · intro t sp au ds ht hsp hau hds hlen
    exact parseFile_wrong_digits t sp au ds ht hsp hau hds hlen
  · intro dirs cat cs img hcat hcs himg
    obtain ⟨d, hd, n, m, hn, hp, _, hsrc⟩ := image_origin hcat hcs himg
    exact ⟨d, hd, n, m, hn, hp, hsrc⟩

/-- C6 witness: one-digit and three-digit indices fail to match, and the
matching `00` index is two digits. -/
theorem C6_witness :
    parseFile (mkPngName ("inversion") ("sp1") ("au1") ['1', '2', '3']) = none ∧
    parseFile (mkPngName ("inversion") ("sp1") ("au1") ['1']) = none ∧
    twoDigits (FileMatch.mk ("inversion") ("sp1") ("au1") ("00")).index.data = true :=
  ⟨C6_theorem.2.1 ("inversion") ("sp1") ("au1") ['1', '2', '3']
      (by decide) (by decide) (by decide) (by decide) (by decide),
   C6_theorem.2.1 ("inversion") ("sp1") ("au1") ['1']
      (by decide) (by decide) (by decide) (by decide) (by decide),
   C6_theorem.1 ("inversion_sp1_au1_00.png") _ (by decide)⟩

/-! ## Claim C7 -/

/-- A validly named directory whose only entry is an image with no caption
sidecar. -/
def dNoCap : CaseDir :=
  ⟨("sp1_au1"), [⟨("inversion_sp1_au1_01.png"), ("")⟩]⟩

/-- C7: a grammar-matching image file with no caption sidecar still appears
in the manifest with caption equal to the empty string while `validate_case`
separately reports a missing-caption problem for it; and whenever a sidecar
exists (second subject `d2`/`n2`), the caption is the sidecar's text trimmed
of surrounding whitespace. -/
theorem C7_theorem (dirs : List CaseDir) (d : CaseDir) (n : String) (m : FileMatch)
    (d2 : CaseDir) (n2 : String) (e2 : FileEntry)
    (hd : d ∈ dirs) (hn : n ∈ pngEnum d) (hp : parseFile n = some m)
    (hname : caseDirMatch d.name = true)
    (hmiss : findEntry d (txtName n) = none)
    (hhave : findEntry d2 (txtName n2) = some e2) :
    caption_for d n = ("") ∧
    (("[") ++ d.name ++ ("] Missing caption TXT for ") ++ n) ∈ validate_case d ∧
    (∃ cat ∈ (build_data dirs).categories, ∃ cs ∈ cat.cases, ∃ img ∈ cs.images,
      img.src = relName d n ∧ img.caption = ("")) ∧
    caption_for d2 n2 = String.mk (stripWS e2.content.data) := by
  have hcap : caption_for d n = ("") := by
    unfold caption_for
    rw [hmiss]
  refine ⟨hcap, ?_, ?_, ?_⟩
  · unfold validate_case
    rw [if_neg (by simp [hname])]
    rw [List.mem_flatMap]
    refine ⟨(orderOf n, n), item_mem_sorted hn, ?_⟩
    simp only [hp]
    have hhe : hasEntry d (txtName n) = false := by
      unfold hasEntry
      rw [hmiss]
      rfl
    apply List.mem_append_right
    rw [hhe]
    simp
  · obtain ⟨cat, hcat, cs, hcs, _, hmem⟩ := image_in_manifest hd hn hp
    exact ⟨cat, hcat, cs, hcs, imageOf d n m, hmem, rfl, hcap⟩
  · unfold caption_for
    rw [hhave]

/-- C7 witness: the caption-less image of `dNoCap` and the caption-ed image
of `dWit`, both concrete. -/
theorem C7_witness :
    caption_for dNoCap ("inversion_sp1_au1_01.png") = ("") ∧
    (("[") ++ dNoCap.name ++ ("] Missing caption TXT for ") ++ ("inversion_sp1_au1_01.png"))
      ∈ validate_case dNoCap ∧
    (∃ cat ∈ (build_data [dNoCap]).categories, ∃ cs ∈ cat.cases, ∃ img ∈ cs.images,
      img.src = relName dNoCap ("inversion_sp1_au1_01.png") ∧ img.caption = ("")) ∧
    caption_for dWit ("inversion_sp1_au1_01.png") =
      String.mk (stripWS (FileEntry.mk ("inversion_sp1_au1_01.txt") ("c")).content.data) :=
  C7_theorem [dNoCap] dNoCap ("inversion_sp1_au1_01.png")
    ⟨("inversion"), ("sp1"), ("au1"), ("01")⟩
    dWit ("inversion_sp1_au1_01.png") ⟨("inversion_sp1_au1_01.txt"), ("c")⟩
    (by decide) (by decide) (by decide) (by decide) (by decide) (by decide)

/-! ## Claim C10 -/

theorem hasEntry_name_mem {d : CaseDir} {c : String} (h : hasEntry d c = true) :
    c ∈ d.entries.map (fun e => e.name) := by
  unfold hasEntry findEntry at h
  cases hf : d.entries.find? (fun e => e.name = c) with
  | none => rw [hf] at h; cases h
  | some e =>
    have h1 := List.find?_some hf
    have h2 := List.mem_of_find?_eq_some hf
    rw [decide_eq_true_eq] at h1
    exact List.mem_map.mpr ⟨e, h2, h1⟩

theorem cover_mem_pngEnum {d : CaseDir} {c : String} (hhas : hasEntry d c = true)
    (hc : c = ("cover.png") ∨ c ∈ TYPES.map (fun t => ("cover_") ++ t ++ (".png"))) :
    c ∈ pngEnum d ∧ parseFile c = none := by
  have hnm := hasEntry_name_mem hhas
  have hcs : c = ("cover.png") ∨ c = ("cover_inversion.png") ∨
      c = ("cover_translocation.png") ∨ c = ("cover_duplication.png") := by
    rcases hc with h | h
    · exact Or.inl h
    · simp only [TYPES, List.map_cons, List.map_nil, List.mem_cons, List.not_mem_nil,
        or_false] at h
      rcases h with h | h | h
      · exact Or.inr (Or.inl h)
      · exact Or.inr (Or.inr (Or.inl h))
      · exact Or.inr (Or.inr (Or.inr h))
  constructor
  · apply List.mem_append_left
    apply List.mem_filter.mpr
    refine ⟨hnm, ?_⟩
    rcases hcs with rfl | rfl | rfl | rfl <;> decide
  · rcases hcs with rfl | rfl | rfl | rfl <;> decide

/-- C10: a generic `cover.png` or type-specific `cover_<type>.png` present in
a validly named directory is reported by `validate_case` as a bad-filename
problem (it is globbed as a png but does not match `FILE_RE`), so check mode
exits nonzero for any directory using the cover feature, even though
`build_data`'s cover resolution uses that very file as the case's
`coverImage`. -/
theorem C10_theorem (dirs : List CaseDir) (d : CaseDir) (c : String)
    (hd : d ∈ dirs) (hname : caseDirMatch d.name = true)
    (hc : c = ("cover.png") ∨ c ∈ TYPES.map (fun t => ("cover_") ++ t ++ (".png")))
    (hhas : hasEntry d c = true) :
    (("[") ++ d.name ++ ("] Bad file name: ") ++ c ++
      (" (expected <type>_<speciesID>_<authorID>_XX.png)")) ∈ validate_case d ∧
    validate_case d ≠ [] ∧
    (runCheck true dirs).exitCode = 1 ∧
    (∀ t i, c = ("cover_") ++ t ++ (".png") → coverFor d t i = relName d c) ∧
    (c = ("cover.png") → ∀ t i, hasEntry d (("cover_") ++ t ++ (".png")) = false →
      coverFor d t i = relName d c) := by
  obtain ⟨hmm, hpc⟩ := cover_mem_pngEnum hhas hc
  have hmsg : (("[") ++ d.name ++ ("] Bad file name: ") ++ c ++
      (" (expected <type>_<speciesID>_<authorID>_XX.png)")) ∈ validate_case d := by
    unfold validate_case
    rw [if_neg (by simp [hname])]
    rw [List.mem_flatMap]
    refine ⟨(orderOf c, c), item_mem_sorted hmm, ?_⟩
    simp [hpc]
  refine ⟨hmsg, List.ne_nil_of_mem hmsg, ?_, ?_, ?_⟩
  · have hprob : (("[") ++ d.name ++ ("] Bad file name: ") ++ c ++
        (" (expected <type>_<speciesID>_<authorID>_XX.png)")) ∈ checkProblems true dirs := by
      unfold checkProblems
      rw [if_pos rfl]
      exact List.mem_flatMap.mpr ⟨d, hd, hmsg⟩
    have hne : (checkProblems true dirs).isEmpty = false := by
      cases hcp : checkProblems true dirs with
      | nil => rw [hcp] at hprob; cases hprob
      | cons a l => rfl
    unfold runCheck
    rw [if_neg (by simp [hne])]
  · intro t i hct
    unfold coverFor
    rw [← hct, if_pos hhas]
  · intro hcg t i htyped
    unfold coverFor
    rw [htyped]
    simp only [Bool.false_eq_true, if_false]
    rw [← hcg, if_pos hhas, hcg]

/-- A directory containing both a type-specific inversion cover and a
generic cover, plus one inversion image and one duplication image. -/
def dCover : CaseDir :=
  ⟨("sp1_au1"),
    [⟨("cover_inversion.png"), ("")⟩,
     ⟨("cover.png"), ("")⟩,
     ⟨("inversion_sp1_au1_01.png"), ("")⟩,
     ⟨("inversion_sp1_au1_01.txt"), ("a")⟩,
     ⟨("duplication_sp1_au1_01.png"), ("")⟩,
     ⟨("duplication_sp1_au1_01.txt"), ("b")⟩]⟩

/-- C10 witness: concrete cover files of `dCover` are flagged, check mode
fails, and the same files are used as covers. -/
theorem C10_witness :
    (("[") ++ dCover.name ++ ("] Bad file name: ") ++ ("cover_inversion.png") ++
      (" (expected <type>_<speciesID>_<authorID>_XX.png)")) ∈ validate_case dCover ∧
    (runCheck true [dCover]).exitCode = 1 ∧
    coverFor dCover ("inversion") defImage = relName dCover ("cover_inversion.png") ∧
    coverFor dCover ("duplication") defImage = relName dCover ("cover.png") :=
  ⟨(C10_theorem [dCover] dCover ("cover_inversion.png")
      (by decide) (by decide) (Or.inr (by decide)) (by decide)).1,
   (C10_theorem [dCover] dCover ("cover_inversion.png")
      (by decide) (by decide) (Or.inr (by decide)) (by decide)).2.2.1,
   (C10_theorem [dCover] dCover ("cover_inversion.png")
      (by decide) (by decide) (Or.inr (by decide)) (by decide)).2.2.2.1
      ("inversion") defImage rfl,
   (C10_theorem [dCover] dCover ("cover.png")
      (by decide) (by decide) (Or.inl rfl) (by decide)).2.2.2.2 rfl
      ("duplication") defImage (by decide)⟩

/-! ## Claim C4 -/

/-- C4: every case in the manifest originates from a directory `d` and a type
`t`; its images are exactly the type-`t` partition of `d`, and its cover is
resolved in order: the type-specific `cover_<t>.png` if present, else the
generic `cover.png` if present, else the `src` of the first image of the
case's own partition. -/
theorem C4_theorem {dirs : List CaseDir} {cat : Category} {cs : Case}
    (hcat : cat ∈ (build_data dirs).categories) (hcs : cs ∈ cat.cases) :
    ∃ d, d ∈ dirs ∧ ∃ t, t ∈ TYPES ∧ TYPE_TO_SLUG t = cat.slug ∧ cs.slug = d.name ∧
      cs.images = imagesOfType d t ∧
      ((hasEntry d (("cover_") ++ t ++ (".png")) = true ∧
          cs.coverImage = relName d (("cover_") ++ t ++ (".png"))) ∨
       (hasEntry d (("cover_") ++ t ++ (".png")) = false ∧
          hasEntry d ("cover.png") = true ∧
          cs.coverImage = relName d ("cover.png")) ∨
       (hasEntry d (("cover_") ++ t ++ (".png")) = false ∧
          hasEntry d ("cover.png") = false ∧
          ∃ i rest, cs.images = i :: rest ∧ cs.coverImage = i.src)) := by
  obtain ⟨d, hd, t, ht, hslug, i, rest, hi, he⟩ := case_origin hcat hcs
  subst he
  refine ⟨d, hd, t, ht, hslug, rfl, hi.symm, ?_⟩
  cases h1 : hasEntry d (("cover_") ++ t ++ (".png")) with
  | true =>
    left
    refine ⟨rfl, ?_⟩
    show coverFor d t i = _
    unfold coverFor
    rw [if_pos h1]
  | false =>
    cases h2 : hasEntry d ("cover.png") with
    | true =>
      right; left
      refine ⟨rfl, rfl, ?_⟩
      show coverFor d t i = _
      unfold coverFor
      rw [if_neg (by simp [h1]), if_pos h2]
    | false =>
      right; right
      refine ⟨rfl, rfl, i, rest, rfl, ?_⟩
      show coverFor d t i = _
      unfold coverFor
      rw [if_neg (by simp [h1]), if_neg (by simp [h2])]

/-- C4 witness: in `dCover` (which has both `cover_inversion.png` and
`cover.png`) the inversion case uses the typed cover and the duplication case
uses the generic cover; the resolution theorem applied to the concrete
inversion case. -/
theorem C4_witness :
    ((build_data [dCover]).categories.map (fun c => c.cases.map (fun cs => cs.coverImage)) =
      [[("images/sp1_au1/cover_inversion.png")], [], [("images/sp1_au1/cover.png")]]) ∧
    (∃ d, d ∈ [dCover] ∧ ∃ t, t ∈ TYPES ∧
      TYPE_TO_SLUG t = ((build_data [dCover]).categories.getD 0 defCategory).slug ∧
      (((build_data [dCover]).categories.getD 0 defCategory).cases.getD 0 defCase).slug = d.name ∧
      (((build_data [dCover]).categories.getD 0 defCategory).cases.getD 0 defCase).images
        = imagesOfType d t ∧
      ((hasEntry d (("cover_") ++ t ++ (".png")) = true ∧
          (((build_data [dCover]).categories.getD 0 defCategory).cases.getD 0 defCase).coverImage
            = relName d (("cover_") ++ t ++ (".png"))) ∨
       (hasEntry d (("cover_") ++ t ++ (".png")) = false ∧
          hasEntry d ("cover.png") = true ∧
          (((build_data [dCover]).categories.getD 0 defCategory).cases.getD 0 defCase).coverImage
            = relName d ("cover.png")) ∨
       (hasEntry d (("cover_") ++ t ++ (".png")) = false ∧
          hasEntry d ("cover.png") = false ∧
          ∃ i rest,
            (((build_data [dCover]).categories.getD 0 defCategory).cases.getD 0 defCase).images
              = i :: rest ∧
            (((build_data [dCover]).categories.getD 0 defCategory).cases.getD 0 defCase).coverImage
              = i.src))) :=
  ⟨by decide,
   @C4_theorem [dCover]
     ((build_data [dCover]).categories.getD 0 defCategory)
     (((build_data [dCover]).categories.getD 0 defCategory).cases.getD 0 defCase)
     (by decide) (by decide)⟩

/-! ## Claim C8 -/

theorem buildCategory_slug (A : List (String × Case)) (s : String) :
    (buildCategory A s).slug = s := rfl

theorem buildCategory_singleton (d : CaseDir) (t : String) (ht : t ∈ TYPES) :
    (buildCategory (casesOfDir d) (TYPE_TO_SLUG t)).cases =
      (match imagesOfType d t with
       | [] => []
       | i :: rest =>
         [{ slug := d.name, name := human_case_name d.name, description := ("")
          , coverImage := coverFor d t i, images := i :: rest }]) := by
  rcases (show t = ("inversion") ∨ t = ("translocation") ∨ t = ("duplication") by
      simpa [TYPES] using ht) with rfl | rfl | rfl <;>
  · unfold buildCategory casesOfDir TYPES TYPE_TO_SLUG
    cases hI : imagesOfType d ("inversion") <;>
      cases hT : imagesOfType d ("translocation") <;>
        cases hD : imagesOfType d ("duplication") <;>
          simp [hI, hT, hD, sortLe, insLe]

/-- C8: for a directory `d`, the manifest of `[d]` has, in the category of
each type `t`, exactly one case when `d` has images of type `t` and none
otherwise; that case carries slug `d.name`, the directory's display name,
and exactly the images of its own type.  A mixed-type directory hence yields
one case per type present, with equal slugs and names, in different
categories. -/
theorem C8_theorem (d : CaseDir) (t : String) (ht : t ∈ TYPES) :
    ∃ cat, (build_data [d]).categories.find? (fun c => c.slug = TYPE_TO_SLUG t) = some cat ∧
      cat.cases =
        (match imagesOfType d t with
         | [] => []
         | i :: rest =>
           [{ slug := d.name, name := human_case_name d.name, description := ("")
            , coverImage := coverFor d t i, images := i :: rest }]) ∧
      ∀ cs ∈ cat.cases, cs.slug = d.name ∧ cs.name = human_case_name d.name ∧
        cs.images = imagesOfType d t ∧
        ∀ img ∈ cs.images, ∃ n m, n ∈ pngEnum d ∧ parseFile n = some m ∧
          lowerS m.ftype = t ∧ img = imageOf d n m := by
  have hall : (sortLe dirLe [d]).flatMap casesOfDir = casesOfDir d := by
    show (insLe dirLe d []).flatMap casesOfDir = casesOfDir d
    simp [insLe]
  have hcats : (build_data [d]).categories =
      [buildCategory (casesOfDir d) ("inversions"),
       buildCategory (casesOfDir d) ("translocations"),
       buildCategory (casesOfDir d) ("duplications")] := by
    unfold build_data
    rw [hall]
    rfl
  have hrest : ∀ cs ∈ (buildCategory (casesOfDir d) (TYPE_TO_SLUG t)).cases,
      cs.slug = d.name ∧ cs.name = human_case_name d.name ∧
      cs.images = imagesOfType d t ∧
      ∀ img ∈ cs.images, ∃ n m, n ∈ pngEnum d ∧ parseFile n = some m ∧
        lowerS m.ftype = t ∧ img = imageOf d n m := by
    intro cs hcs
    rw [buildCategory_singleton d t ht] at hcs
    cases hmatch : imagesOfType d t with
    | nil => rw [hmatch] at hcs; cases hcs
    | cons i rest =>
      rw [hmatch] at hcs
      rw [List.mem_singleton] at hcs
      subst hcs
      refine ⟨rfl, rfl, rfl, ?_⟩
      intro img himg
      have : img ∈ imagesOfType d t := by rw [hmatch]; exact himg
      obtain ⟨n, m, hn, hp, hl, he⟩ := mem_imagesOfType.mp this
      exact ⟨n, m, hn, hp, hl, he⟩
  rcases (show t = ("inversion") ∨ t = ("translocation") ∨ t = ("duplication") by
      simpa [TYPES] using ht) with rfl | rfl | rfl
  · refine ⟨buildCategory (casesOfDir d) ("inversions"), ?_,
      buildCategory_singleton d _ ht, hrest⟩
    rw [hcats]
    apply List.find?_cons_of_pos
    rw [buildCategory_slug]
    decide
  · refine ⟨buildCategory (casesOfDir d) ("translocations"), ?_,
      buildCategory_singleton d _ ht, hrest⟩
    rw [hcats]
    rw [List.find?_cons_of_neg _ (by rw [buildCategory_slug]; decide)]
    apply List.find?_cons_of_pos
    rw [buildCategory_slug]
    decide
  · refine ⟨buildCategory (casesOfDir d) ("duplications"), ?_,
      buildCategory_singleton d _ ht, hrest⟩
    rw [hcats]
    rw [List.find?_cons_of_neg _ (by rw [buildCategory_slug]; decide)]
    rw [List.find?_cons_of_neg _ (by rw [buildCategory_slug]; decide)]
    apply List.find?_cons_of_pos
    rw [buildCategory_slug]
    decide

/-- A mixed-type directory: one inversion image and one duplication image. -/
def dMix : CaseDir :=
  ⟨("sp1_au1"),
    [⟨("inversion_sp1_au1_01.png"), ("")⟩,
     ⟨("inversion_sp1_au1_01.txt"), ("a")⟩,
     ⟨("duplication_sp1_au1_01.png"), ("")⟩,
     ⟨("duplication_sp1_au1_01.txt"), ("b")⟩]⟩

/-- C8 witness: `dMix` yields exactly two cases, both with slug `sp1_au1`
and the same name, in the inversions and duplications categories, and the
per-type theorem applied at type `inversion`. -/
theorem C8_witness :
    ((build_data [dMix]).categories.map (fun c => c.cases.length) = [1, 0, 1]) ∧
    ((build_data [dMix]).categories.map (fun c => c.cases.map (fun cs => cs.slug)) =
      [[("sp1_au1")], [], [("sp1_au1")]]) ∧
    ((build_data [dMix]).categories.map (fun c => c.cases.map (fun cs => cs.name)) =
      [[("sp1 — au1")], [], [("sp1 — au1")]]) ∧
    (∃ cat, (build_data [dMix]).categories.find?
        (fun c => c.slug = TYPE_TO_SLUG ("inversion")) = some cat ∧
      cat.cases =
        (match imagesOfType dMix ("inversion") with
         | [] => []
         | i :: rest =>
           [{ slug := dMix.name, name := human_case_name dMix.name, description := ("")
            , coverImage := coverFor dMix ("inversion") i, images := i :: rest }]) ∧
      ∀ cs ∈ cat.cases, cs.slug = dMix.name ∧ cs.name = human_case_name dMix.name ∧
        cs.images = imagesOfType dMix ("inversion") ∧
        ∀ img ∈ cs.images, ∃ n m, n ∈ pngEnum dMix ∧ parseFile n = some m ∧
          lowerS m.ftype = ("inversion") ∧ img = imageOf dMix n m) :=
  ⟨by decide, by decide, by decide, C8_theorem dMix ("inversion") (by decide)⟩

/-! ## Claim C3 -/

/-- The filename component of a manifest image's `src`. -/
def srcFileName (s : String) : String := String.mk (lastComp s.data)

/-- The image ordering key recovered from a manifest image: its numeric
index (9999 for non-matching names) and its filename. -/
def imgKey (i : Image) : Nat × String := (orderOf (srcFileName i.src), srcFileName i.src)

/-- The image ordering relation of the spec: ascending numeric index, ties
broken by case-insensitive filename comparison. -/
def imgLe (a b : Image) : Bool := itemLe (imgKey a) (imgKey b)

/-- Well-formedness of the modelled filesystem: path components contain no
slash (true of every real directory listing). -/
def noSlash (d : CaseDir) : Prop :=
  (∀ c ∈ d.name.data, c ≠ '/') ∧ ∀ e ∈ d.entries, ∀ c ∈ e.name.data, c ≠ '/'

instance (d : CaseDir) : Decidable (noSlash d) := by
  unfold noSlash
  infer_instance

theorem takeWhile_append_of_all {p : Char → Bool} :
    ∀ (a : List Char) (x : Char) (b : List Char),
      (∀ c ∈ a, p c = true) → p x = false →
      (a ++ x :: b).takeWhile p = a
  | [], x, b, _, hx => by simp [List.takeWhile_cons, hx]
  | c :: a', x, b, ha, hx => by
    simp only [List.cons_append, List.takeWhile_cons]
    rw [ha c (List.mem_cons_self c a'), if_pos rfl,
      takeWhile_append_of_all a' x b (fun u hu => ha u (List.mem_cons_of_mem c hu)) hx]

theorem lastComp_rel (d : CaseDir) (n : String) (hn : ∀ c ∈ n.data, c ≠ '/') :
    lastComp (relName d n).data = n.data := by
  unfold lastComp
  have hdata : (relName d n).data = (("images/") ++ d.name ++ ("/")).data ++ n.data := rfl
  have h2 : (("images/") ++ d.name ++ ("/")).data.reverse
      = '/' :: (("images/") ++ d.name).data.reverse := by
    rw [show (("images/") ++ d.name ++ ("/")).data
        = (("images/") ++ d.name).data ++ ['/'] from rfl, List.reverse_append]
    rfl
  rw [hdata, List.reverse_append, h2,
    takeWhile_append_of_all n.data.reverse '/' (("images/") ++ d.name).data.reverse
      (fun c hc => by
        rw [decide_eq_true_eq]
        exact hn c (List.mem_reverse.mp hc))
      (by decide),
    List.reverse_reverse]

theorem pngEnum_no_slash {d : CaseDir} (hd : noSlash d) {n : String} (hn : n ∈ pngEnum d) :
    ∀ c ∈ n.data, c ≠ '/' := by
  unfold pngEnum globExt at hn
  rcases List.mem_append.mp hn with h | h <;>
  · obtain ⟨hmem, _⟩ := List.mem_filter.mp h
    obtain ⟨e, he, hname⟩ := List.mem_map.mp hmem
    rw [← hname]
    exact hd.2 e he

theorem imgKey_imageOf {d : CaseDir} {n : String} {m : FileMatch}
    (hd : noSlash d) (hn : n ∈ pngEnum d) :
    imgKey (imageOf d n m) = (orderOf n, n) := by
  unfold imgKey srcFileName
  rw [show (imageOf d n m).src = relName d n from rfl,
    lastComp_rel d n (pngEnum_no_slash hd hn)]

theorem imagesOfType_pairwise (d : CaseDir) (t : String) (hd : noSlash d) :
    (imagesOfType d t).Pairwise (fun a b => imgLe a b = true) := by
  unfold imagesOfType
  apply pairwise_filterMap_of_pairwise (fun x y => itemLe x y = true)
  · unfold list_pngs_sorted
    exact pairwise_sortLe itemLe itemLe_total itemLe_trans _
  · intro a b x y ha hb hR hfa hfb
    have hoA := mem_item_sorted (show ((a.1, a.2) : Nat × String) ∈ list_pngs_sorted d from ha)
    have hoB := mem_item_sorted (show ((b.1, b.2) : Nat × String) ∈ list_pngs_sorted d from hb)
    split at hfa
    · rename_i mA hpA
      split at hfa
      · rename_i hlA
        split at hfb
        · rename_i mB hpB
          split at hfb
          · rename_i hlB
            have hx : imgKey x = (a.1, a.2) := by
              rw [← Option.some.inj hfa, imgKey_imageOf hd hoA.1, ← hoA.2]
            have hy : imgKey y = (b.1, b.2) := by
              rw [← Option.some.inj hfb, imgKey_imageOf hd hoB.1, ← hoB.2]
            unfold imgLe
            rw [hx, hy]
            exact hR
          · cases hfb
        · cases hfb
      · cases hfa
    · cases hfa

/-- C3: the manifest's categories are exactly `[inversions, translocations,
duplications]` in that order for every input; within each category the cases
are pairwise ordered by case-insensitive slug comparison; and within each
case the images are pairwise ordered by ascending numeric index with ties
broken by case-insensitive filename comparison. -/
theorem C3_theorem (dirs : List CaseDir) (hwf : ∀ d ∈ dirs, noSlash d) :
    ((build_data dirs).categories.map (fun c => c.slug) =
      [("inversions"), ("translocations"), ("duplications")]) ∧
    (∀ cat ∈ (build_data dirs).categories,
      cat.cases.Pairwise (fun a b => caseLe a b = true)) ∧
    (∀ cat ∈ (build_data dirs).categories, ∀ cs ∈ cat.cases,
      cs.images.Pairwise (fun a b => imgLe a b = true)) := by
  refine ⟨rfl, ?_, ?_⟩
  · intro cat hcat
    obtain ⟨slug, _, hc⟩ := mem_categories.mp hcat
    subst hc
    exact pairwise_sortLe caseLe caseLe_total caseLe_trans _
  · intro cat hcat cs hcs
    obtain ⟨d, hd, t, _, _, i, rest, hi, he⟩ := case_origin hcat hcs
    subst he
    show (i :: rest).Pairwise _
    rw [← hi]
    exact imagesOfType_pairwise d t (hwf d hd)

/-- C3 witness: the ordering facts at the concrete mixed-type manifest. -/
theorem C3_witness :
    ((build_data [dMix]).categories.map (fun c => c.slug) =
      [("inversions"), ("translocations"), ("duplications")]) ∧
    (((build_data [dMix]).categories.getD 0 defCategory).cases.Pairwise
      (fun a b => caseLe a b = true)) ∧
    ((((build_data [dMix]).categories.getD 0 defCategory).cases.getD 0 defCase).images.Pairwise
      (fun a b => imgLe a b = true)) :=
  ⟨(C3_theorem [dMix] (by decide)).1,
   (C3_theorem [dMix] (by decide)).2.1
     ((build_data [dMix]).categories.getD 0 defCategory) (by decide),
   (C3_theorem [dMix] (by decide)).2.2
     ((build_data [dMix]).categories.getD 0 defCategory) (by decide)
     (((build_data [dMix]).categories.getD 0 defCategory).cases.getD 0 defCase) (by decide)⟩

/-! ## Claim C9 -/

/-- Two directory listings with the same name and the same entries, possibly
enumerated in a different order. -/
def DirEquiv (d d' : CaseDir) : Prop :=
  d.name = d'.name ∧ d.entries.Perm d'.entries

/-- The case-insensitive sort key of one `(order, name)` item. -/
def itemKey (it : Nat × String) : Nat × String := (it.1, String.mk (lowerL it.2.data))

/-- No two globbed pngs of `d` share the `(order, lowercased name)` sort key,
and entry names are unique (true of every real directory). -/
def goodDir (d : CaseDir) : Prop :=
  ((pngItems d).map itemKey).Nodup ∧ (d.entries.map (fun e => e.name)).Nodup

/-- No two sibling directories share a lowercased name. -/
def goodDirs (dirs : List CaseDir) : Prop :=
  (dirs.map (fun d => String.mk (lowerL d.name.data))).Nodup

instance (d : CaseDir) : Decidable (goodDir d) := by
  unfold goodDir
  infer_instance

instance (dirs : List CaseDir) : Decidable (goodDirs dirs) := by
  unfold goodDirs
  infer_instance

theorem findEntry_congr {d d' : CaseDir} (hperm : d.entries.Perm d'.entries)
    (hnod : (d.entries.map (fun e => e.name)).Nodup) (n : String) :
    findEntry d n = findEntry d' n := by
  unfold findEntry
  cases hf : d.entries.find? (fun e => e.name = n) with
  | none =>
    cases hf2 : d'.entries.find? (fun e => e.name = n) with
    | none => rfl
    | some e =>
      exfalso
      have he := hperm.symm.mem_iff.mp (List.mem_of_find?_eq_some hf2)
      exact absurd (List.find?_some hf2) (by simpa using List.find?_eq_none.mp hf e he)
  | some e =>
    have he := List.mem_of_find?_eq_some hf
    have hpe := List.find?_some hf
    cases hf2 : d'.entries.find? (fun e => e.name = n) with
    | none =>
      exfalso
      exact absurd hpe (by simpa using List.find?_eq_none.mp hf2 e (hperm.mem_iff.mp he))
    | some e2 =>
      have he2 := hperm.symm.mem_iff.mp (List.mem_of_find?_eq_some hf2)
      have hpe2 := List.find?_some hf2
      rw [decide_eq_true_eq] at hpe hpe2
      rw [List.inj_on_of_nodup_map hnod he he2 (hpe.trans hpe2.symm)]

theorem imagesOfType_congr {d d' : CaseDir} (hname : d.name = d'.name)
    (hlist : list_pngs_sorted d = list_pngs_sorted d')
    (hcap : ∀ n, caption_for d n = caption_for d' n) (t : String) :
    imagesOfType d t = imagesOfType d' t := by
  unfold imagesOfType
  rw [← hlist]
  apply List.filterMap_congr
  intro it _
  cases parseFile it.2 with
  | none => rfl
  | some m =>
    simp only
    unfold imageOf relName
    rw [hname, hcap]

theorem casesOfDir_congr {d d' : CaseDir} (hequiv : DirEquiv d d') (hg : goodDir d) :
    casesOfDir d = casesOfDir d' := by
  obtain ⟨hname, hperm⟩ := hequiv
  have hfind : ∀ n, findEntry d n = findEntry d' n := findEntry_congr hperm hg.2
  have hhas : ∀ n, hasEntry d n = hasEntry d' n := fun n => by
    unfold hasEntry
    rw [hfind n]
  have hcap : ∀ n, caption_for d n = caption_for d' n := fun n => by
    unfold caption_for
    rw [hfind (txtName n)]
  have hsorted : list_pngs_sorted d = list_pngs_sorted d' := by
    unfold list_pngs_sorted
    apply sortLe_eq_of_perm itemLe itemLe_total itemLe_trans
    · unfold pngItems pngEnum globExt
      exact (((hperm.map _).filter _).append ((hperm.map _).filter _)).map _
    · intro x hx y hy h1 h2
      obtain ⟨ho, hl⟩ := itemLe_both x y h1 h2
      refine List.inj_on_of_nodup_map hg.1 hx hy ?_
      unfold itemKey
      rw [ho, hl]
  have himgs := imagesOfType_congr hname hsorted hcap
  unfold casesOfDir
  apply List.filterMap_congr
  intro t _
  rw [← himgs t]
  cases imagesOfType d t with
  | nil => rfl
  | cons i rest =>
    have hcover : coverFor d t i = coverFor d' t i := by
      unfold coverFor relName
      rw [hhas, hhas, hname]
    simp only
    rw [hcover, hname]

theorem lower_names_eq {dirs mid : List CaseDir} (h : List.Forall₂ DirEquiv dirs mid) :
    dirs.map (fun d => String.mk (lowerL d.name.data))
      = mid.map (fun d => String.mk (lowerL d.name.data)) := by
  induction h with
  | nil => rfl
  | cons ha _ ih =>
    simp only [List.map_cons, ha.1, ih]

set_option maxRecDepth 8192 in
/-- C9 counterexample: two enumerations of the same directory content (two
`FILE_RE`-matching files whose names coincide after lower-casing, listed in
the two possible orders) produce different manifest bytes, refuting
order-independence. -/
theorem C9_counterexample :
    (CaseDir.mk ("sp1_au1")
        [⟨("inversion_SP1_au1_01.png"), ("")⟩, ⟨("inversion_sp1_AU1_01.png"), ("")⟩]).name
      = (CaseDir.mk ("sp1_au1")
        [⟨("inversion_sp1_AU1_01.png"), ("")⟩, ⟨("inversion_SP1_au1_01.png"), ("")⟩]).name ∧
    (CaseDir.mk ("sp1_au1")
        [⟨("inversion_SP1_au1_01.png"), ("")⟩, ⟨("inversion_sp1_AU1_01.png"), ("")⟩]).entries.Perm
      (CaseDir.mk ("sp1_au1")
        [⟨("inversion_sp1_AU1_01.png"), ("")⟩, ⟨("inversion_SP1_au1_01.png"), ("")⟩]).entries ∧
    renderManifest [CaseDir.mk ("sp1_au1")
        [⟨("inversion_SP1_au1_01.png"), ("")⟩, ⟨("inversion_sp1_AU1_01.png"), ("")⟩]]
      ≠ renderManifest [CaseDir.mk ("sp1_au1")
        [⟨("inversion_sp1_AU1_01.png"), ("")⟩, ⟨("inversion_SP1_au1_01.png"), ("")⟩]] := by
  refine ⟨rfl, by decide, by decide⟩

/-- C9 (amended): the build is deterministic, and its output is independent
of filesystem enumeration order provided no two sort keys tie
case-insensitively: if `mid` re-enumerates each directory's entries
(`Forall₂ DirEquiv`) and `dirs2` re-enumerates the directory list (`Perm`),
and no two globbed pngs of a directory share an `(order, lowercased name)`
key, entry names are unique, and no two sibling directories share a
lowercased name, then the rendered manifests are byte-identical.  With
case-insensitive key ties (see the counterexample) the output can depend on
enumeration order. -/
theorem C9_theorem (dirs mid dirs2 : List CaseDir)
    (h1 : List.Forall₂ DirEquiv dirs mid) (h2 : mid.Perm dirs2)
    (hgood : ∀ d ∈ dirs, goodDir d) (hnames : goodDirs dirs) :
    renderManifest dirs = renderManifest dirs2 := by
  have hA : build_data dirs = build_data mid := by
    have hs : List.Forall₂ DirEquiv (sortLe dirLe dirs) (sortLe dirLe mid) :=
      sortLe_congr dirLe DirEquiv
        (fun a a' b b' ha hb => by
          unfold dirLe
          rw [ha.1, hb.1]) h1
    have hflat : (sortLe dirLe dirs).flatMap casesOfDir
        = (sortLe dirLe mid).flatMap casesOfDir :=
      flatMap_congr_forall2 DirEquiv casesOfDir hs
        (fun a a' hmem hR => casesOfDir_congr hR (hgood a ((mem_sortLe _ _ _).mp hmem)))
    unfold build_data
    rw [hflat]
  have hB : build_data mid = build_data dirs2 := by
    have hmidn : (mid.map (fun d => String.mk (lowerL d.name.data))).Nodup := by
      rw [← lower_names_eq h1]
      exact hnames
    have hsorted2 : sortLe dirLe mid = sortLe dirLe dirs2 := by
      apply sortLe_eq_of_perm dirLe dirLe_total dirLe_trans _ _ h2
      intro a ha b hb hab hba
      have hl : lowerL a.name.data = lowerL b.name.data := lexLe_antisymm _ _ hab hba
      exact List.inj_on_of_nodup_map hmidn ha hb (by rw [hl])
    unfold build_data
    rw [hsorted2]
  unfold renderManifest
  rw [hA, hB]

/-- C9 witness: the invariance theorem applied to a concrete two-directory
state whose entries and directory list are both re-enumerated. -/
theorem C9_witness :
    renderManifest
      [⟨("sp2_au2"),
        [⟨("inversion_sp2_au2_01.png"), ("")⟩, ⟨("inversion_sp2_au2_02.png"), ("")⟩]⟩,
       ⟨("sp1_au1"), [⟨("inversion_sp1_au1_01.png"), ("")⟩]⟩]
    = renderManifest
      [⟨("sp1_au1"), [⟨("inversion_sp1_au1_01.png"), ("")⟩]⟩,
       ⟨("sp2_au2"),
        [⟨("inversion_sp2_au2_02.png"), ("")⟩, ⟨("inversion_sp2_au2_01.png"), ("")⟩]⟩] :=
  C9_theorem
    [⟨("sp2_au2"),
      [⟨("inversion_sp2_au2_01.png"), ("")⟩, ⟨("inversion_sp2_au2_02.png"), ("")⟩]⟩,
     ⟨("sp1_au1"), [⟨("inversion_sp1_au1_01.png"), ("")⟩]⟩]
    [⟨("sp2_au2"),
      [⟨("inversion_sp2_au2_02.png"), ("")⟩, ⟨("inversion_sp2_au2_01.png"), ("")⟩]⟩,
     ⟨("sp1_au1"), [⟨("inversion_sp1_au1_01.png"), ("")⟩]⟩]
    [⟨("sp1_au1"), [⟨("inversion_sp1_au1_01.png"), ("")⟩]⟩,
     ⟨("sp2_au2"),
      [⟨("inversion_sp2_au2_02.png"), ("")⟩, ⟨("inversion_sp2_au2_01.png"), ("")⟩]⟩]
    (List.Forall₂.cons ⟨rfl, by decide⟩ (List.Forall₂.cons ⟨rfl, by decide⟩ List.Forall₂.nil))
    (by decide) (by decide) (by decide)

end HiC
